import Mathlib

/-!
Shallow embedding of the PowerDNS API client
(`vendor/github.com/dmportella/powerdns/powerdns.go`) and proofs about it.

The Go code is a thin HTTP client.  The embedding keeps every pure
computation of the source (identifier formatting and parsing, URL path
construction, zone-response flattening, request-body construction,
status-code handling) as executable Lean definitions.  The HTTP exchange
itself is abstracted: each operation takes the outcome of its network
round trip (an `Except` carrying either a transport/decode error or the
decoded response) as an argument, exactly at the point where the Go code
calls `client.http.Do` / `json.Decode`.

Go slices distinguish `nil` from a non-nil empty slice; the embedding
models a slice as `Option (List α)` (`none` = nil).  Go `range` over a
nil slice iterates zero times and `append` to a nil slice yields a
non-nil slice, which is what `GoSlice.view` / `goAppend` implement.
-/

namespace powerdns

/-- A Go slice: `none` models the nil slice, `some l` a non-nil slice with
elements `l`. -/
abbrev GoSlice (α : Type) := Option (List α)

/-- The elements of a Go slice; `range` over a nil slice sees `[]`. -/
def GoSlice.view {α : Type} (s : GoSlice α) : List α := s.getD []

/-- Go `append(s, x)`: appending to a slice (nil or not) yields a non-nil
slice. -/
def goAppend {α : Type} (s : GoSlice α) (x : α) : GoSlice α :=
  some (s.view ++ [x])

/-- `Record` — a single DNS record (powerdns.go, type `Record`).  The Go
field `Type` is rendered `Type_` because `Type` is a Lean keyword. -/
structure Record where
  Name : String
  Type_ : String
  Content : String
  TTL : Int
  Disabled : Bool
  deriving DecidableEq, Repr

/-- `ResourceRecordSet` — a named, typed group of records
(powerdns.go, type `ResourceRecordSet`). -/
structure ResourceRecordSet where
  Name : String
  Type_ : String
  ChangeType : String
  TTL : Int
  Records : GoSlice Record
  deriving DecidableEq, Repr

/-- `ZoneInfo` — a DNS zone as decoded from the server
(powerdns.go, type `ZoneInfo`). -/
structure ZoneInfo where
  ID : String
  Name : String
  Account : String
  URL : String
  LastCheck : Int
  Kind : String
  DNSSec : Bool
  Serial : Int
  NotifiedSerial : Int
  Masters : List String
  Records : GoSlice Record
  ResourceRecordSets : GoSlice ResourceRecordSet
  deriving DecidableEq, Repr

/-- `zonePatchRequest` — the body of a zone PATCH (powerdns.go). -/
structure zonePatchRequest where
  RecordSets : GoSlice ResourceRecordSet
  deriving DecidableEq, Repr

/-- `errorResponse` — the decoded `{"error": msg}` body (powerdns.go). -/
structure errorResponse where
  ErrorMsg : String
  deriving DecidableEq, Repr

/-- `IDSeparator` — separator for record identifiers (powerdns.go). -/
def IDSeparator : String := ":::"

/-- `Record.ID()` (powerdns.go): `record.Name + IDSeparator + record.Type`. -/
def Record.ID (record : Record) : String :=
  record.Name ++ IDSeparator ++ record.Type_

/-- `ResourceRecordSet.ID()` (powerdns.go). -/
def ResourceRecordSet.ID (rrSet : ResourceRecordSet) : String :=
  rrSet.Name ++ IDSeparator ++ rrSet.Type_

/-- The record synthesized by `ListRecords` from a member `record` of the
record set `rrs` (powerdns.go lines 218-223): the struct literal sets
`Name`, `Type`, `Content`, `TTL`; `Disabled` is left at its zero value. -/
def flattenedRecord (rrs : ResourceRecordSet) (record : Record) : Record :=
  { Name := rrs.Name
    Type_ := rrs.Type_
    Content := record.Content
    TTL := rrs.TTL
    Disabled := false }

/-- The pure body of `ListRecords` (powerdns.go lines 214-227): start from
the zone's legacy `Records` slice, then for each record set, for each of
its member records, append the synthesized flat record. -/
def listRecordsOfZone (zoneInfo : ZoneInfo) : GoSlice Record :=
  zoneInfo.ResourceRecordSets.view.foldl
    (fun records rrs =>
      rrs.Records.view.foldl
        (fun records record => goAppend records (flattenedRecord rrs record))
        records)
    zoneInfo.Records

/-- `ListRecords` (powerdns.go lines 196-228): `decoded` is the outcome of
the GET round trip and JSON decode of the zone; any error there is
returned unchanged, otherwise the flattening above runs. -/
def ListRecords (decoded : Except String ZoneInfo) :
    Except String (GoSlice Record) :=
  match decoded with
  | .error e => .error e
  | .ok zoneInfo => .ok (listRecordsOfZone zoneInfo)

theorem goAppend_view {α : Type} (s : GoSlice α) (x : α) :
    (goAppend s x).view = s.view ++ [x] := rfl

theorem innerFold_view (rrs : ResourceRecordSet) (l : List Record)
    (records : GoSlice Record) :
    (l.foldl (fun records record =>
        goAppend records (flattenedRecord rrs record)) records).view
      = records.view ++ l.map (flattenedRecord rrs) := by
  induction l generalizing records with
  | nil => simp
  | cons r rest ih =>
      simp [List.foldl_cons, ih, goAppend_view, List.append_assoc]

theorem outerFold_view (sets : List ResourceRecordSet)
    (records : GoSlice Record) :
    (sets.foldl
      (fun records rrs =>
        rrs.Records.view.foldl
          (fun records record =>
            goAppend records (flattenedRecord rrs record))
          records)
      records).view
      = records.view
        ++ sets.flatMap
            (fun rrs => rrs.Records.view.map (flattenedRecord rrs)) := by
  induction sets generalizing records with
  | nil => simp
  | cons rrs rest ih =>
      simp only [List.foldl_cons, List.flatMap_cons]
      rw [ih, innerFold_view, List.append_assoc]

theorem listRecordsOfZone_view (zoneInfo : ZoneInfo) :
    (listRecordsOfZone zoneInfo).view
      = zoneInfo.Records.view
        ++ zoneInfo.ResourceRecordSets.view.flatMap
            (fun rrs => rrs.Records.view.map (flattenedRecord rrs)) := by
  unfold listRecordsOfZone
  rw [outerFold_view]

/-- C1: For every zone response, `ListRecords` returns the legacy-format
records first, followed by one flat `Record` per member of each record
set, in the server's listed order of sets and of members within each set;
each synthesized record takes `Name`, `Type` and `TTL` from the enclosing
record set and `Content` from the member record. -/
theorem C1_listRecords_legacy_then_flattened (zoneInfo : ZoneInfo) :
    ∃ s : GoSlice Record, ListRecords (.ok zoneInfo) = .ok s ∧
      s.view = zoneInfo.Records.view
        ++ zoneInfo.ResourceRecordSets.view.flatMap
            (fun rrs => rrs.Records.view.map
              (fun record =>
                { Name := rrs.Name
                  Type_ := rrs.Type_
                  Content := record.Content
                  TTL := rrs.TTL
                  Disabled := false })) :=
  ⟨listRecordsOfZone zoneInfo, rfl, listRecordsOfZone_view zoneInfo⟩

/-- C9: every record that `ListRecords` synthesizes from a record-set
member (i.e. every record past the legacy prefix of the result) has
`Disabled = false`, whatever the member record's own flag was: the
synthesis copies only `Content` from the member. -/
theorem C9_flattened_records_not_disabled (zoneInfo : ZoneInfo) (r : Record)
    (h : r ∈ ((listRecordsOfZone zoneInfo).view).drop
        zoneInfo.Records.view.length) :
    r.Disabled = false := by
  rw [ listRecordsOfZone_view, List.drop_left] at h
  simp only [ List.mem_flatMap, List.mem_map] at h
  obtain ⟨rrs, _, record, _, hr⟩ := h
  rw [← hr]
  rfl

/-- Witness for C9: a concrete zone whose single record set holds a member
with `Disabled = true`; the synthesized record is nevertheless reported
with `Disabled = false`. -/
theorem C9_flattened_records_not_disabled_witness :
    (Record.mk "a.example.com." "A" "1.2.3.4" 60 false).Disabled = false :=
  C9_flattened_records_not_disabled
    { ID := "z1", Name := "example.com.", Account := "", URL := "",
      LastCheck := 0, Kind := "Native", DNSSec := false, Serial := 1,
      NotifiedSerial := 1, Masters := [],
      Records := some [Record.mk "old.example.com." "A" "5.6.7.8" 300 false],
      ResourceRecordSets := some
        [ResourceRecordSet.mk "a.example.com." "A" "" 60
          (some [Record.mk "" "" "1.2.3.4" 0 true])] }
    (Record.mk "a.example.com." "A" "1.2.3.4" 60 false)
    (by decide)

/-!
### `strings.Split` and `parseID`

Go's `strings.Split(s, sep)` with a non-empty separator cuts `s` at each
greedy left-to-right non-overlapping occurrence of `sep`.  `splitAux`
re-implements that scan on `List Char`: `acc` holds the current piece in
reverse; at the first position where `sep` is a prefix of the remainder
the piece is emitted and the scan continues after the separator.
-/

def splitAux (sep : List Char) (acc : List Char) : List Char → List (List Char)
  | [] => [acc.reverse]
  | c :: rest =>
    if sep.isPrefixOf (c :: rest) then
      acc.reverse :: splitAux sep [] (rest.drop (sep.length - 1))
    else
      splitAux sep (c :: acc) rest
termination_by s => s.length
decreasing_by
  · simp only [ List.length_drop, List.length_cons]
    omega
  · simp only [ List.length_cons]
    omega

/-- `strings.Split` (non-empty separator) on char lists. -/
def goSplit (sep s : List Char) : List (List Char) := splitAux sep [] s

/-- `strings.Split` on `String`s. -/
def goSplitStr (sep s : String) : List String :=
  (goSplit sep.data s.data).map String.mk

/-- `strings.Contains(l, sep)`: some position of `l` starts an occurrence
of `sep`. -/
def containsSeq (sep : List Char) : List Char → Bool
  | [] => sep.isEmpty
  | c :: rest => sep.isPrefixOf (c :: rest) || containsSeq sep rest

/-- `strings.Join` of the pieces with the separator. -/
def joinSep (sep : List Char) : List (List Char) → List Char
  | [] => []
  | [s] => s
  | s :: rest => s ++ sep ++ joinSep sep rest

/-- `parseID` (powerdns.go lines 161-169): split the identifier on
`IDSeparator` and require exactly two pieces. -/
def parseID (recID : String) : Except String (String × String) :=
  match goSplitStr IDSeparator recID with
  | [a, b] => .ok (a, b)
  | _ => .error "Unknown record ID format"

theorem containsSeq_false_iff (sep l : List Char) :
    containsSeq sep l = false ↔ ∀ t, t <:+ l → ¬ sep <+: t := by
  induction l with
  | nil =>
      constructor
      · intro h t ht hpre
        have ht' := List.suffix_nil.mp ht
        subst ht'
        have hsep := List.prefix_nil.mp hpre
        subst hsep
        simp [containsSeq] at h
      · intro h
        cases sep with
        | nil => exact absurd ( List.nil_prefix) (h [] (List.suffix_refl []))
        | cons d sep' => rfl
  | cons c rest ih =>
      constructor
      · intro h t ht hpre
        simp only [containsSeq, Bool.or_eq_false_iff] at h
        obtain ⟨h1, h2⟩ := h
        rcases List.suffix_cons_iff.mp ht with rfl | ht'
        · rw [← List.isPrefixOf_iff_prefix] at hpre
          rw [hpre] at h1
          cases h1
        · exact (ih.mp h2) t ht' hpre
      · intro h
        simp only [containsSeq, Bool.or_eq_false_iff]
        refine ⟨?_,
          ih.mpr (fun t ht hpre =>
            h t (List.suffix_cons_iff.mpr (Or.inr ht)) hpre)⟩
        cases hx : sep.isPrefixOf (c :: rest) with
        | false => rfl
        | true =>
            exact absurd ( List.isPrefixOf_iff_prefix.mp hx)
              (h (c :: rest) (List.suffix_refl _))

theorem splitAux_of_not_contains (sep : List Char) (s : List Char)
    (h : containsSeq sep s = false) :
    ∀ acc, splitAux sep acc s = [acc.reverse ++ s] := by
  induction s with
  | nil => intro acc; simp [splitAux]
  | cons c rest ih =>
      intro acc
      simp only [containsSeq, Bool.or_eq_false_iff] at h
      rw [splitAux, if_neg (by simp [h.1]), ih h.2]
      simp

/-- A prefix of an append that fits inside the left part is a prefix of
the left part. -/
theorem prefix_of_append_of_length_le {α : Type} {l₁ l₂ l₃ : List α}
    (h : l₁ <+: l₂ ++ l₃) (hlen : l₁.length ≤ l₂.length) : l₁ <+: l₂ := by
  obtain ⟨r, hr⟩ := h
  have h1 : (l₂ ++ l₃).take l₁.length = l₁ := by
    rw [← hr, List.take_left]
  rw [ List.take_append_of_le_length hlen] at h1
  rw [← h1]
  exact List.take_prefix _ _

theorem suffix_concat_decomp {α : Type} {t l : List α} {c : α}
    (h : t <:+ l ++ [c]) (hne : t ≠ []) :
    ∃ t', t = t' ++ [c] ∧ t' <:+ l := by
  obtain ⟨u, hu⟩ := h
  rcases List.eq_nil_or_concat t with rfl | ⟨t', a, rfl⟩
  · exact absurd rfl hne
  · simp only [List.concat_eq_append] at hu ⊢
    rw [← List.append_assoc] at hu
    obtain ⟨h1, h2⟩ := List.append_inj' hu (by simp)
    obtain rfl : a = c := by simpa using h2
    exact ⟨t', rfl, ⟨u, h1⟩⟩

theorem splitAux_ne_nil (sep : List Char) :
    ∀ acc s, splitAux sep acc s ≠ [] := by
  intro acc s
  induction acc, s using splitAux.induct sep with
  | case1 acc => simp [splitAux]
  | case2 acc c rest h ih =>
      rw [splitAux, if_pos h]
      simp
  | case3 acc c rest h ih =>
      rw [splitAux, if_neg h]
      exact ih

theorem joinSep_cons (sep a : List Char) {l : List (List Char)}
    (h : l ≠ []) : joinSep sep (a :: l) = a ++ sep ++ joinSep sep l := by
  cases l with
  | nil => exact absurd rfl h
  | cons b l' => rfl

/-- Reconstruction: joining the pieces of a split with the separator
gives back the original string. -/
theorem joinSep_splitAux (sep : List Char) (hsep : sep ≠ []) :
    ∀ acc s, joinSep sep (splitAux sep acc s) = acc.reverse ++ s := by
  intro acc s
  induction acc, s using splitAux.induct sep with
  | case1 acc => simp [splitAux, joinSep]
  | case2 acc c rest h ih =>
      rw [splitAux, if_pos h, joinSep_cons sep _ (splitAux_ne_nil sep _ _), ih]
      have hpre : sep <+: c :: rest := List.isPrefixOf_iff_prefix.mp h
      obtain ⟨r, hr⟩ := hpre
      have hdrop : rest.drop (sep.length - 1) = r := by
        have h1 : (c :: rest).drop sep.length = rest.drop (sep.length - 1) := by
          obtain ⟨k, hk⟩ : ∃ k, sep.length = k + 1 :=
            ⟨sep.length - 1, by
              cases sep with
              | nil => exact absurd rfl hsep
              | cons d sep' => simp⟩
          rw [hk, List.drop_succ_cons]
          simp
        rw [← h1, ← hr, List.drop_left]
      rw [hdrop]
      simp only [List.reverse_nil, List.nil_append]
      rw [List.append_assoc, hr]
  | case3 acc c rest h ih =>
      rw [splitAux, if_neg h, ih]
      simp

/-- The scan in `splitAux` cuts at the first occurrence: under the
invariant that no occurrence of `sep` starts inside the accumulated
piece, every emitted piece is occurrence-free. -/
theorem splitAux_pieces_free (sep : List Char) (hsep : sep ≠ []) :
    ∀ acc s, (∀ t, t <:+ acc.reverse → t ≠ [] → ¬ sep <+: (t ++ s)) →
      ∀ p ∈ splitAux sep acc s, containsSeq sep p = false := by
  intro acc s
  induction acc, s using splitAux.induct sep with
  | case1 acc =>
      intro hinv p hp
      simp only [splitAux, List.mem_singleton] at hp
      subst hp
      rw [containsSeq_false_iff]
      intro t ht hpre
      rcases eq_or_ne t [] with rfl | htne
      · exact hsep (List.prefix_nil.mp hpre)
      · exact hinv t ht htne (by simpa using hpre)
  | case2 acc c rest h ih =>
      intro hinv p hp
      rw [splitAux, if_pos h] at hp
      rcases List.mem_cons.mp hp with rfl | hp'
      · rw [containsSeq_false_iff]
        intro t ht hpre
        rcases eq_or_ne t [] with rfl | htne
        · exact hsep (List.prefix_nil.mp hpre)
        · exact hinv t ht htne (hpre.trans (List.prefix_append t (c :: rest)))
      · refine ih ?_ p hp'
        intro t ht htne _
        exact absurd (List.suffix_nil.mp (by simpa using ht)) htne
  | case3 acc c rest h ih =>
      intro hinv p hp
      rw [splitAux, if_neg h] at hp
      refine ih ?_ p hp
      intro t ht htne hpre
      rw [List.reverse_cons] at ht
      obtain ⟨t', rfl, ht'⟩ := suffix_concat_decomp ht htne
      rcases eq_or_ne t' [] with rfl | htne'
      · apply h
        rw [ List.isPrefixOf_iff_prefix]
        simpa using hpre
      · apply hinv t' ht' htne'
        simpa [List.append_assoc] using hpre

/-- Splitting a string of the form `name ++ sep ++ type` where no
occurrence of `sep` starts before the displayed one, and `type` is
occurrence-free, yields exactly the two pieces. -/
theorem splitAux_boundary (sep type : List Char) (hsep : sep ≠ [])
    (htype : containsSeq sep type = false) :
    ∀ name acc,
      (∀ t, t <:+ name → t ≠ [] → ¬ sep <+: (t ++ sep ++ type)) →
      splitAux sep acc (name ++ sep ++ type) = [acc.reverse ++ name, type] := by
  intro name
  induction name with
  | nil =>
      intro acc _
      obtain ⟨d, sep', rfl⟩ : ∃ d sep', sep = d :: sep' := by
        cases sep with
        | nil => exact absurd rfl hsep
        | cons d sep' => exact ⟨d, sep', rfl⟩
      simp only [List.nil_append, List.cons_append]
      have hp : (d :: sep').isPrefixOf (d :: (sep' ++ type)) = true := by
        rw [ List.isPrefixOf_iff_prefix]
        exact ⟨type, by simp⟩
      rw [splitAux, if_pos hp]
      have hd : (sep' ++ type).drop ((d :: sep').length - 1) = type := by
        simp only [List.length_cons, Nat.add_sub_cancel]
        exact List.drop_left sep' type
      rw [hd, splitAux_of_not_contains _ _ htype]
      simp
  | cons c restname ih =>
      intro acc hinv
      have harg : (c :: restname) ++ sep ++ type
          = c :: (restname ++ sep ++ type) := by simp
      have hn : ¬ (sep.isPrefixOf (c :: (restname ++ sep ++ type)) = true) := by
        intro hx
        exact hinv (c :: restname) (List.suffix_refl _) (by simp)
          (by simpa [List.append_assoc] using List.isPrefixOf_iff_prefix.mp hx)
      rw [harg, splitAux, if_neg hn,
        ih (c :: acc)
          (fun t ht htne hpre =>
            hinv t (List.suffix_cons_iff.mpr (Or.inr ht)) htne hpre)]
      simp

/-- A two-piece split decomposes the string at what is its only
(non-overlapping) occurrence of the separator: the string is
`a ++ sep ++ b` and neither piece contains an occurrence of `sep`. -/
theorem goSplit_two_reconstruct {sep s a b : List Char} (hsep : sep ≠ [])
    (h : goSplit sep s = [a, b]) :
    s = a ++ sep ++ b
      ∧ containsSeq sep a = false ∧ containsSeq sep b = false := by
  have hj := joinSep_splitAux sep hsep [] s
  rw [goSplit] at h
  rw [h] at hj
  have hfree := splitAux_pieces_free sep hsep [] s
    (fun t ht htne _ => absurd (List.suffix_nil.mp (by simpa using ht)) htne)
  rw [h] at hfree
  refine ⟨?_, hfree a (by simp), hfree b (by simp)⟩
  rw [show joinSep sep [a, b] = a ++ sep ++ b from rfl] at hj
  simpa using hj.symm

theorem goSplitStr_two_inv {sep s a b : String}
    (h : goSplitStr sep s = [a, b]) :
    goSplit sep.data s.data = [a.data, b.data] := by
  rw [goSplitStr] at h
  cases hg : goSplit sep.data s.data with
  | nil => rw [hg] at h; cases h
  | cons p l =>
      cases l with
      | nil => rw [hg] at h; cases h
      | cons q l2 =>
          cases l2 with
          | cons r l3 => rw [hg] at h; cases h
          | nil =>
              rw [hg] at h
              simp only [List.map_cons, List.map_nil, List.cons.injEq,
                and_true] at h
              obtain ⟨h1, h2⟩ := h
              rw [← h1, ← h2]

theorem parseID_error_of_length_ne_two (recID : String)
    (h : (goSplitStr IDSeparator recID).length ≠ 2) :
    parseID recID = .error "Unknown record ID format" := by
  cases hx : goSplitStr IDSeparator recID with
  | nil => rw [parseID, hx]
  | cons a l =>
      cases l with
      | nil => rw [parseID, hx]
      | cons b l2 =>
          cases l2 with
          | nil => rw [hx] at h; simp at h
          | cons c l3 => rw [parseID, hx]

/-- C4 (amended): `parseID` succeeds exactly when the identifier splits
on `":::"` into exactly two pieces — equivalently, the identifier is
`name ++ ":::" ++ type` where neither piece contains a further
(non-overlapping) occurrence of the separator; the pieces may be empty.
Every identifier whose split does not have exactly two pieces is
rejected with an error, never silently truncated. -/
theorem C4_parseID_exactly_two_pieces (recID : String) :
    (∀ a b : String, parseID recID = .ok (a, b) →
        recID = a ++ IDSeparator ++ b
          ∧ containsSeq IDSeparator.data a.data = false
          ∧ containsSeq IDSeparator.data b.data = false)
      ∧ ((goSplitStr IDSeparator recID).length ≠ 2 →
          parseID recID = .error "Unknown record ID format") := by
  constructor
  · intro a b hok
    have hsplit2 : goSplitStr IDSeparator recID = [a, b] := by
      cases hx : goSplitStr IDSeparator recID with
      | nil => rw [parseID, hx] at hok; cases hok
      | cons x l =>
          cases l with
          | nil => rw [parseID, hx] at hok; cases hok
          | cons y l2 =>
              cases l2 with
              | cons z l3 => rw [parseID, hx] at hok; cases hok
              | nil =>
                  rw [parseID, hx] at hok
                  obtain ⟨rfl, rfl⟩ : x = a ∧ y = b := by simpa using hok
                  rfl
    obtain ⟨hrec, hfa, hfb⟩ :=
      goSplit_two_reconstruct (by decide) (goSplitStr_two_inv hsplit2)
    refine ⟨?_, hfa, hfb⟩
    apply String.ext
    rw [String.data_append, String.data_append]
    exact hrec
  · exact parseID_error_of_length_ne_two recID

/-- Counterexample to C4 as stated: the identifier `":::"` does not
consist of two *non-empty* parts, yet `parseID` accepts it, returning
two empty parts rather than rejecting. -/
theorem C4_counterexample :
    parseID ":::" = .ok ("", "")
      ∧ ¬ (∀ a b : String, parseID ":::" = .ok (a, b) → a ≠ "" ∧ b ≠ "") := by
  have hb := splitAux_boundary [':', ':', ':'] [] (by decide) (by decide) [] []
    (fun t ht htne _ => absurd (List.suffix_nil.mp ht) htne)
  simp only [List.reverse_nil, List.nil_append, List.append_nil] at hb
  have hsplit : goSplitStr IDSeparator ":::" = ["", ""] := by
    rw [goSplitStr, show IDSeparator.data = [':', ':', ':'] from rfl,
      show (":::" : String).data = [':', ':', ':'] from rfl, goSplit, hb]
    rfl
  have hok : parseID ":::" = .ok ("", "") := by rw [parseID, hsplit]
  exact ⟨hok, fun hcl => ((hcl "" "" hok).1) rfl⟩

/-- Witness for C4 (amended): `"a:::b"` parses into `("a", "b")`, which
decomposes the identifier around its single separator occurrence, and
`"ab"` (no separator, one piece) is rejected. -/
theorem C4_parseID_exactly_two_pieces_witness :
    ("a:::b" : String) = "a" ++ IDSeparator ++ "b"
      ∧ containsSeq IDSeparator.data ("a" : String).data = false
      ∧ containsSeq IDSeparator.data ("b" : String).data = false
      ∧ parseID "ab" = .error "Unknown record ID format" := by
  have hb := splitAux_boundary [':', ':', ':'] ['b'] (by decide) (by decide)
    ['a'] []
    (by
      intro t ht htne hpre
      have ht' : t = ['a'] := by
        rcases List.suffix_cons_iff.mp ht with h | h
        · exact h
        · exact absurd (List.suffix_nil.mp h) htne
      subst ht'
      revert hpre
      decide)
  simp only [List.reverse_nil, List.nil_append] at hb
  have hsplit : goSplitStr IDSeparator "a:::b" = ["a", "b"] := by
    rw [goSplitStr, show IDSeparator.data = [':', ':', ':'] from rfl,
      show ("a:::b" : String).data = ['a'] ++ [':', ':', ':'] ++ ['b']
        from rfl, goSplit, hb]
    rfl
  have hok : parseID "a:::b" = .ok ("a", "b") := by rw [parseID, hsplit]
  obtain ⟨hx, hy, hz⟩ :=
    (C4_parseID_exactly_two_pieces "a:::b").1 "a" "b" hok
  have hab : goSplitStr IDSeparator "ab" = ["ab"] := by
    rw [goSplitStr, show IDSeparator.data = [':', ':', ':'] from rfl,
      show ("ab" : String).data = ['a', 'b'] from rfl, goSplit,
      splitAux_of_not_contains _ _ (by decide)]
    rfl
  refine ⟨hx, hy, hz,
    (C4_parseID_exactly_two_pieces "ab").2 (by rw [hab]; simp)⟩

/-- C5 (amended): for every record whose name and type are non-empty and
contain no occurrence of `":::"`, and whose *name does not end in `':'`*
(otherwise the concatenation creates an earlier separator occurrence),
parsing the identifier produced by `Record.ID` recovers exactly that
name and type. -/
theorem C5_parseID_ID_roundTrip (record : Record)
    (hname : record.Name ≠ "") (htype : record.Type_ ≠ "")
    (hnf : containsSeq IDSeparator.data record.Name.data = false)
    (htf : containsSeq IDSeparator.data record.Type_.data = false)
    (hlast : record.Name.data.getLast? ≠ some ':') :
    parseID record.ID = .ok (record.Name, record.Type_) := by
  have hsep : IDSeparator.data ≠ [] := by decide
  have harg : record.ID.data
      = record.Name.data ++ IDSeparator.data ++ record.Type_.data := by
    rw [Record.ID, String.data_append, String.data_append]
  have hinv : ∀ t, t <:+ record.Name.data → t ≠ [] →
      ¬ IDSeparator.data <+: (t ++ IDSeparator.data ++ record.Type_.data) := by
    intro t ht htne hpre
    by_cases hlen : IDSeparator.data.length ≤ t.length
    · have h' : IDSeparator.data
          <+: t ++ (IDSeparator.data ++ record.Type_.data) := by
        rw [← List.append_assoc]
        exact hpre
      exact (containsSeq_false_iff _ _).mp hnf t ht
        (prefix_of_append_of_length_le h' hlen)
    · push_neg at hlen
      obtain ⟨r, hr⟩ := hpre
      have h'' : t <+: IDSeparator.data ++ r := by
        rw [hr]
        exact (List.prefix_append t IDSeparator.data).trans
          (List.prefix_append _ _)
      have hts := prefix_of_append_of_length_le h'' (le_of_lt hlen)
      have hcolon : t.getLast? = some ':' := by
        have hmem := hts.subset (List.getLast_mem htne)
        have hc : t.getLast htne = ':' := by
          rw [show IDSeparator.data = [':', ':', ':'] from rfl] at hmem
          simpa using hmem
        rw [List.getLast?_eq_getLast t htne, hc]
      obtain ⟨u, hu⟩ := ht
      apply hlast
      rw [← hu, List.getLast?_append_of_ne_nil u htne, hcolon]
  have hb := splitAux_boundary IDSeparator.data record.Type_.data hsep htf
      record.Name.data [] hinv
  simp only [List.reverse_nil, List.nil_append] at hb
  have hsplit : goSplitStr IDSeparator record.ID
      = [record.Name, record.Type_] := by
    rw [goSplitStr, harg, goSplit, hb]
    rfl
  rw [parseID, hsplit]

/-- Counterexample to C5 as stated: `name = "x:"` and `type = "y"` are
non-empty and neither contains `":::"`, yet parsing
`Record.ID = "x::::y"` yields `("x", ":y")`, not `("x:", "y")` — the
greedy split cuts at the occurrence starting inside the name. -/
theorem C5_counterexample :
    ("x:" : String) ≠ "" ∧ ("y" : String) ≠ ""
      ∧ containsSeq IDSeparator.data ("x:" : String).data = false
      ∧ containsSeq IDSeparator.data ("y" : String).data = false
      ∧ parseID (Record.ID (Record.mk "x:" "y" "" 0 false)) = .ok ("x", ":y")
      ∧ (("x" : String), (":y" : String)) ≠ (("x:" : String), ("y" : String)) := by
  refine ⟨by decide, by decide, by decide, by decide, ?_, by decide⟩
  have hb := splitAux_boundary [':', ':', ':'] [':', 'y'] (by decide)
    (by decide) ['x'] []
    (by
      intro t ht htne hpre
      have ht' : t = ['x'] := by
        rcases List.suffix_cons_iff.mp ht with h | h
        · exact h
        · exact absurd (List.suffix_nil.mp h) htne
      subst ht'
      revert hpre
      decide)
  simp only [List.reverse_nil, List.nil_append] at hb
  have hsplit : goSplitStr IDSeparator (Record.ID (Record.mk "x:" "y" "" 0 false))
      = ["x", ":y"] := by
    rw [goSplitStr, show IDSeparator.data = [':', ':', ':'] from rfl,
      show (Record.ID (Record.mk "x:" "y" "" 0 false)).data
        = ['x'] ++ [':', ':', ':'] ++ [':', 'y'] from rfl, goSplit, hb]
    rfl
  rw [parseID, hsplit]

/-- Witness for C5 (amended): a realistic name/type pair round-trips. -/
theorem C5_parseID_ID_roundTrip_witness :
    parseID (Record.ID (Record.mk "www.example.com." "A" "1.2.3.4" 300 false))
      = .ok ("www.example.com.", "A") :=
  C5_parseID_ID_roundTrip _ (by decide) (by decide) (by decide) (by decide)
    (by decide)

/-!
### URL path construction (`path.Join` / `path.Clean`) and `NewClient`

Go's `path.Clean` applies the standard lexical rules: split on `'/'`,
drop empty and `"."` segments, resolve `".."` against a segment stack
(popping at the root is a no-op on rooted paths), and re-join, returning
`"."` for an empty un-rooted result and `"/"` for an empty rooted one.
`path.Join` drops leading empty elements, joins the rest with `"/"` and
cleans the result (an all-empty join is `""`).
-/

/-- One step of `path.Clean`'s `..`-resolution over the segment stack. -/
def cleanStep (rooted : Bool) (acc : List (List Char)) (seg : List Char) :
    List (List Char) :=
  if seg = ['.', '.'] then
    if rooted then acc.dropLast
    else if acc ≠ [] ∧ acc.getLast? ≠ some ['.', '.'] then acc.dropLast
    else acc ++ [seg]
  else acc ++ [seg]

/-- Re-join the resolved segments: an empty result is `"."`, or `"/"`
when rooted; otherwise the segments joined by `"/"`, rooted or not. -/
def cleanFinish (rooted : Bool) (out : List (List Char)) : List Char :=
  if out.isEmpty then (if rooted then ['/'] else ['.'])
  else (if rooted then ['/'] else []) ++ joinSep ['/'] out

/-- Go `path.Clean`, lexically, on char lists. -/
def goCleanL (p : List Char) : List Char :=
  if p = [] then ['.']
  else
    cleanFinish (decide (p.head? = some '/'))
      (((goSplit ['/'] p).filter (fun s => !s.isEmpty && s != ['.'])).foldl
        (cleanStep (decide (p.head? = some '/'))) [])

/-- Go `path.Join`: skip leading empty elements, join the rest with
`"/"`, clean; all-empty input joins to `""`. -/
def goPathJoin (elems : List (List Char)) : List Char :=
  let rest := elems.dropWhile (fun e => e.isEmpty)
  if rest.isEmpty then [] else goCleanL (joinSep ['/'] rest)

/-- The URL path `newRequest` computes (powerdns.go lines 79-83): for a
positive API version, `path.Join("/api/v" + itoa(version), endpoint)` —
the stored base path is ignored; otherwise
`path.Join(url.Path, endpoint)` where `url.Path` is the path component
of the stored server URL. -/
def newRequestPath (apiVersion : Int) (basePath endpoint : List Char) :
    List Char :=
  if apiVersion > 0 then
    goPathJoin [("/api/v" ++ toString apiVersion).data, endpoint]
  else
    goPathJoin [basePath, endpoint]

/-- The components of a parsed URL that the client reads or writes
(`net/url.URL` restricted to scheme, host, path); `urlString` is
`URL.String()` for such URLs. -/
structure GoURL where
  scheme : String
  host : String
  path : String
  deriving DecidableEq, Repr

def urlString (u : GoURL) : String :=
  u.scheme ++ "://" ++ u.host ++ u.path

/-- `Client` (powerdns.go): the stored base URL, API key and detected
version (the HTTP transport handle carries no client state and is not
modelled). -/
structure Client where
  serverURL : String
  apiKey : String
  apiVersion : Int
  deriving DecidableEq, Repr

/-- `detectapiVersion` (powerdns.go lines 52-73): `probe` is the outcome
of the GET to `/api/v1/servers` — an error if the request could not be
built or sent, otherwise the response status code.  Status 200 means API
version 1; any other status means version 0; a failed probe propagates
its error (Go returns `(-1, err)`; the version value is unused on that
path). -/
def detectapiVersion (probe : Except String Int) : Except String Int :=
  match probe with
  | .error e => .error e
  | .ok status => if status = 200 then .ok 1 else .ok 0

/-- `NewClient` (powerdns.go lines 28-47): `parsed` is the outcome of
`url.Parse(serverURL)`; a parse error aborts.  The parsed URL's path is
cleared (`url.Path = ""`) before the URL is serialized and stored; then
the version probe runs, and a probe failure aborts construction. -/
def NewClient (parsed : Except String GoURL) (apiKey : String)
    (probe : Except String Int) : Except String Client :=
  match parsed with
  | .error e => .error e
  | .ok url =>
      match detectapiVersion probe with
      | .error e => .error e
      | .ok v =>
          .ok { serverURL := urlString { url with path := "" }
                apiKey := apiKey
                apiVersion := v }

theorem splitAux_single_boundary (c : Char) (b : List Char) :
    ∀ a acc, c ∉ a → splitAux [c] acc (a ++ c :: b)
      = (acc.reverse ++ a) :: splitAux [c] [] b := by
  intro a
  induction a with
  | nil =>
      intro acc _
      have hp : [c].isPrefixOf (c :: b) = true := by
        simp [ List.isPrefixOf]
      rw [List.nil_append, splitAux, if_pos hp]
      simp
  | cons d a' ih =>
      intro acc ha
      have hcd : ¬ (c = d) := fun h => ha (List.mem_cons.mpr (Or.inl h))
      have hnp : ¬ ([c].isPrefixOf (d :: (a' ++ c :: b)) = true) := by
        simp [ List.isPrefixOf, hcd]
      rw [List.cons_append, splitAux, if_neg hnp,
        ih (d :: acc) (fun hm => ha (List.mem_cons.mpr (Or.inr hm)))]
      simp

theorem containsSeq_single_iff (c : Char) (s : List Char) :
    containsSeq [c] s = false ↔ c ∉ s := by
  induction s with
  | nil => simp [containsSeq]
  | cons d rest ih =>
      simp only [containsSeq, Bool.or_eq_false_iff, ih, List.mem_cons,
         List.isPrefixOf, Bool.and_eq_false_iff]
      constructor
      · rintro ⟨h1, h2⟩ h
        rcases h with rfl | hm
        · rcases h1 with h1 | h1
          · simp at h1
          · cases h1
        · exact h2 hm
      · intro h
        exact ⟨Or.inl (by simp; exact fun hcd => h (Or.inl hcd)), fun hm => h (Or.inr hm)⟩

theorem goSplit_single_no_occurrence {c : Char} {s : List Char}
    (h : c ∉ s) : goSplit [c] s = [s] := by
  rw [goSplit, splitAux_of_not_contains _ _ ((containsSeq_single_iff c s).mpr h)]
  simp

/-- Splitting a `"/"`-join of slash-free segments recovers the
segments. -/
theorem goSplit_joinSep (c : Char) :
    ∀ segs : List (List Char), segs ≠ [] → (∀ seg ∈ segs, c ∉ seg) →
      goSplit [c] (joinSep [c] segs) = segs := by
  intro segs
  induction segs with
  | nil => intro h _; exact absurd rfl h
  | cons s rest ih =>
      intro _ hseg
      cases rest with
      | nil => exact goSplit_single_no_occurrence (hseg s (by simp))
      | cons s' rest' =>
          have hj : joinSep [c] (s :: s' :: rest')
              = s ++ c :: joinSep [c] (s' :: rest') := by
            rw [joinSep_cons [c] s (by simp)]
            simp
          rw [hj, goSplit,
            splitAux_single_boundary c (joinSep [c] (s' :: rest')) s []
              (hseg s (by simp)),
            show splitAux [c] [] (joinSep [c] (s' :: rest'))
              = goSplit [c] (joinSep [c] (s' :: rest')) from rfl,
            ih (by simp) (fun seg hm => hseg seg (List.mem_cons.mpr (Or.inr hm)))]
          simp

theorem foldl_cleanStep_no_dotdot (rooted : Bool) :
    ∀ segs : List (List Char), (∀ seg ∈ segs, seg ≠ ['.', '.']) →
      ∀ init, segs.foldl (cleanStep rooted) init = init ++ segs := by
  intro segs
  induction segs with
  | nil => intro _ init; simp
  | cons s rest ih =>
      intro h init
      rw [List.foldl_cons,
        show cleanStep rooted init s = init ++ [s] from by
          rw [cleanStep, if_neg (h s (by simp))],
        ih (fun seg hm => h seg (List.mem_cons.mpr (Or.inr hm))) (init ++ [s])]
      simp

/-- `goSplit` of a rooted join: the leading slash contributes one empty
piece, then the segments. -/
theorem goSplit_rooted_join (segs : List (List Char)) (hne : segs ≠ [])
    (hslash : ∀ seg ∈ segs, '/' ∉ seg) :
    goSplit ['/'] ('/' :: joinSep ['/'] segs) = [] :: segs := by
  rw [show ('/' :: joinSep ['/'] segs)
      = [] ++ '/' :: joinSep ['/'] segs from rfl, goSplit,
    splitAux_single_boundary '/' (joinSep ['/'] segs) [] [] (by simp),
    show splitAux ['/'] [] (joinSep ['/'] segs)
      = goSplit ['/'] (joinSep ['/'] segs) from rfl,
    goSplit_joinSep '/' segs hne hslash]
  simp

/-- Cleaning a rooted join of slash-free, non-dot segments keeps the
root and filters out only empty and `"."` segments. -/
theorem goCleanL_rooted_filtered (segs : List (List Char)) (hne : segs ≠ [])
    (hslash : ∀ seg ∈ segs, '/' ∉ seg)
    (hnd : ∀ seg ∈ segs, seg ≠ ['.'] ∧ seg ≠ ['.', '.']) :
    goCleanL ('/' :: joinSep ['/'] segs)
      = cleanFinish true (segs.filter (fun s => !s.isEmpty && s != ['.'])) := by
  unfold goCleanL
  rw [if_neg (by simp), goSplit_rooted_join segs hne hslash,
    show decide ((('/' :: joinSep ['/'] segs).head?) = some '/') = true from rfl,
    show (([] : List Char) :: segs).filter (fun s => !s.isEmpty && s != ['.'])
      = segs.filter (fun s => !s.isEmpty && s != ['.']) from by simp,
    foldl_cleanStep_no_dotdot true _
      (fun seg hm => (hnd seg (List.mem_filter.mp hm).1).2) [],
    List.nil_append]

/-- The shape of every endpoint this client passes to `newRequest`: a
rooted path of non-empty, slash-free segments, none of which is `"."` or
`".."`. -/
def CleanRootedPath (endpoint : String) (segs : List (List Char)) : Prop :=
  endpoint.data = '/' :: joinSep ['/'] segs ∧ segs ≠ []
    ∧ ∀ seg ∈ segs,
        seg ≠ [] ∧ '/' ∉ seg ∧ seg ≠ ['.'] ∧ seg ≠ ['.', '.']

theorem goPathJoin_unprefixed (segs : List (List Char)) (hne : segs ≠ [])
    (hseg : ∀ seg ∈ segs,
      seg ≠ [] ∧ '/' ∉ seg ∧ seg ≠ ['.'] ∧ seg ≠ ['.', '.']) :
    goPathJoin [[], '/' :: joinSep ['/'] segs]
      = '/' :: joinSep ['/'] segs := by
  unfold goPathJoin
  rw [show (([[], '/' :: joinSep ['/'] segs] : List (List Char)).dropWhile
        (fun e => e.isEmpty)) = [('/' :: joinSep ['/'] segs)] from by
      simp [List.dropWhile],
    if_neg (by simp),
    show joinSep ['/'] [('/' :: joinSep ['/'] segs)]
      = '/' :: joinSep ['/'] segs from rfl,
    goCleanL_rooted_filtered segs hne (fun seg hm => (hseg seg hm).2.1)
      (fun seg hm => ⟨(hseg seg hm).2.2.1, (hseg seg hm).2.2.2⟩),
    List.filter_eq_self.mpr (fun seg hm => by
      simp [(hseg seg hm).1, (hseg seg hm).2.2.1]),
    cleanFinish, if_neg (by simp [hne])]
  simp

theorem goPathJoin_v1_prefixed (segs : List (List Char)) (hne : segs ≠ [])
    (hseg : ∀ seg ∈ segs,
      seg ≠ [] ∧ '/' ∉ seg ∧ seg ≠ ['.'] ∧ seg ≠ ['.', '.']) :
    goPathJoin [("/api/v1" : String).data, '/' :: joinSep ['/'] segs]
      = ("/api/v1" : String).data ++ ('/' :: joinSep ['/'] segs) := by
  unfold goPathJoin
  have hjoin : joinSep ['/']
        [("/api/v1" : String).data, '/' :: joinSep ['/'] segs]
      = '/' :: joinSep ['/']
          ((['a', 'p', 'i'] : List Char) :: ['v', '1'] :: [] :: segs) := by
    rw [show joinSep ['/']
          [("/api/v1" : String).data, '/' :: joinSep ['/'] segs]
        = ("/api/v1" : String).data ++ ['/'] ++ ('/' :: joinSep ['/'] segs)
        from rfl,
      joinSep_cons _ _ (by simp), joinSep_cons _ _ (by simp),
      joinSep_cons _ _ hne,
      show ("/api/v1" : String).data
        = ['/', 'a', 'p', 'i', '/', 'v', '1'] from rfl]
    simp
  rw [show (([("/api/v1" : String).data, '/' :: joinSep ['/'] segs]
        : List (List Char)).dropWhile (fun e => e.isEmpty))
      = [("/api/v1" : String).data, '/' :: joinSep ['/'] segs] from by
      simp [List.dropWhile],
    if_neg (by simp), hjoin,
    goCleanL_rooted_filtered _ (by simp)
      (by
        intro seg hm
        simp only [List.mem_cons] at hm
        rcases hm with rfl | rfl | rfl | hm
        · decide
        · decide
        · decide
        · exact (hseg seg hm).2.1)
      (by
        intro seg hm
        simp only [List.mem_cons] at hm
        rcases hm with rfl | rfl | rfl | hm
        · decide
        · decide
        · decide
        · exact ⟨(hseg seg hm).2.2.1, (hseg seg hm).2.2.2⟩)]
  rw [show ((['a', 'p', 'i'] : List Char) :: ['v', '1'] :: [] :: segs).filter
        (fun s => !s.isEmpty && s != ['.'])
      = (['a', 'p', 'i'] : List Char) :: ['v', '1']
          :: segs.filter (fun s => !s.isEmpty && s != ['.']) from by simp,
    List.filter_eq_self.mpr (fun seg hm => by
      simp [(hseg seg hm).1, (hseg seg hm).2.2.1]),
    cleanFinish, if_neg (by simp),
    joinSep_cons _ _ (by simp), joinSep_cons _ _ hne,
    show ("/api/v1" : String).data
      = ['/', 'a', 'p', 'i', '/', 'v', '1'] from rfl]
  simp

/-- C2: at client construction the version probe's result fully
determines path construction: a 200 probe status makes the client
version 1 and every subsequent request path is the endpoint prefixed
with `/api/v1`; any other status makes it version 0 and endpoint paths
are used un-prefixed; and a failed probe makes `NewClient` return the
error and no client value. -/
theorem C2_version_probe_determines_paths (status : Int) (e : String)
    (u : GoURL) (apiKey endpoint : String) (segs : List (List Char))
    (basePath : List Char) (hep : CleanRootedPath endpoint segs) :
    (∀ c, NewClient (.ok u) apiKey (.ok status) = .ok c →
        c.apiVersion = if status = 200 then 1 else 0)
      ∧ NewClient (.ok u) apiKey (.error e) = .error e
      ∧ newRequestPath 1 basePath endpoint.data
          = ("/api/v1" : String).data ++ endpoint.data
      ∧ newRequestPath 0 [] endpoint.data = endpoint.data := by
  obtain ⟨hdata, hne, hseg⟩ := hep
  have hd : detectapiVersion (.ok status)
      = .ok (if status = 200 then 1 else 0) := by
    by_cases h : status = 200 <;> simp [detectapiVersion, h]
  refine ⟨?_, rfl, ?_, ?_⟩
  · intro c hc
    rw [show NewClient (.ok u) apiKey (.ok status)
        = .ok { serverURL := urlString { u with path := "" }
                apiKey := apiKey
                apiVersion := if status = 200 then 1 else 0 } from by
      simp [NewClient, hd]] at hc
    injection hc with h1
    rw [← h1]
  · unfold newRequestPath
    rw [if_pos (by norm_num),
      show ("/api/v" ++ toString (1 : Int)) = ("/api/v1" : String) from rfl,
      hdata]
    exact goPathJoin_v1_prefixed segs hne hseg
  · unfold newRequestPath
    rw [if_neg (by norm_num), hdata]
    exact goPathJoin_unprefixed segs hne hseg

/-- Witness for C2 at the endpoint `/servers/localhost/zones`: probe
failure propagates, version 1 prefixes the path, version 0 leaves it
alone, and a 200 probe yields a version-1 client. -/
theorem C2_version_probe_determines_paths_witness :
    NewClient (.ok (GoURL.mk "http" "10.44.17.104:8100" "/api/v1"))
        "changeme" (.error "connection refused")
        = .error "connection refused"
      ∧ newRequestPath 1 [] ("/servers/localhost/zones" : String).data
          = ("/api/v1" : String).data
            ++ ("/servers/localhost/zones" : String).data
      ∧ newRequestPath 0 [] ("/servers/localhost/zones" : String).data
          = ("/servers/localhost/zones" : String).data
      ∧ (Client.mk "http://10.44.17.104:8100" "changeme" 1).apiVersion
          = if (200 : Int) = 200 then 1 else 0 := by
  have h := C2_version_probe_determines_paths 200 "connection refused"
    (GoURL.mk "http" "10.44.17.104:8100" "/api/v1") "changeme"
    "/servers/localhost/zones"
    [['s', 'e', 'r', 'v', 'e', 'r', 's'],
     ['l', 'o', 'c', 'a', 'l', 'h', 'o', 's', 't'],
     ['z', 'o', 'n', 'e', 's']]
    [] (by refine ⟨rfl, by decide, by decide⟩)
  exact ⟨h.2.1, h.2.2.1, h.2.2.2,
    h.1 (Client.mk "http://10.44.17.104:8100" "changeme" 1) rfl⟩

/-- C10: `NewClient` discards the parsed URL's path component before
storing the base URL: the stored server URL is scheme://host only, so a
base URL carrying a path behaves identically to the same URL without
one. -/
theorem C10_newClient_ignores_url_path (u : GoURL) (apiKey : String)
    (probe : Except String Int) (c : Client)
    (h : NewClient (.ok u) apiKey probe = .ok c) :
    c.serverURL = u.scheme ++ "://" ++ u.host
      ∧ NewClient (.ok u) apiKey probe
          = NewClient (.ok { u with path := "" }) apiKey probe := by
  refine ⟨?_, rfl⟩
  cases hd : detectapiVersion probe with
  | error e =>
      rw [show NewClient (.ok u) apiKey probe = .error e from by
        simp [NewClient, hd]] at h
      cases h
  | ok v =>
      rw [show NewClient (.ok u) apiKey probe
          = .ok { serverURL := urlString { u with path := "" }
                  apiKey := apiKey
                  apiVersion := v } from by simp [NewClient, hd]] at h
      injection h with h1
      rw [← h1]
      show urlString { u with path := "" } = u.scheme ++ "://" ++ u.host
      rw [urlString]
      apply String.ext
      rw [String.data_append]
      simp

/-- Witness for C10: the demo program's base URL
`http://10.44.17.104:8100/api/v1` yields the same client as
`http://10.44.17.104:8100`. -/
theorem C10_newClient_ignores_url_path_witness :
    (Client.mk "http://10.44.17.104:8100" "changeme" 1).serverURL
        = "http" ++ "://" ++ "10.44.17.104:8100"
      ∧ NewClient (.ok (GoURL.mk "http" "10.44.17.104:8100" "/api/v1"))
            "changeme" (.ok 200)
          = NewClient (.ok (GoURL.mk "http" "10.44.17.104:8100" ""))
            "changeme" (.ok 200) := by
  have h := C10_newClient_ignores_url_path
    (GoURL.mk "http" "10.44.17.104:8100" "/api/v1") "changeme" (.ok 200)
    (Client.mk "http://10.44.17.104:8100" "changeme" 1) rfl
  exact ⟨h.1, h.2⟩

/-!
### Mutation requests and record listing operations
-/

/-- The observable outcome of an HTTP exchange for the mutation methods:
the response status code, and the result of decoding the response body
as an `errorResponse` (an error when the body is not a decodable error
object) — the only two facts about the response those methods read. -/
structure HTTPResponse where
  StatusCode : Int
  errorBody : Except String errorResponse
  deriving Repr

/-- Go's `%q` on one character: escape a double quote or backslash (the
full verb also escapes control and non-printable characters, which never
occur in the messages at issue here). -/
def goQuoteChar (c : Char) : List Char :=
  if c = '"' then ['\\', '"']
  else if c = '\\' then ['\\', '\\']
  else [c]

/-- Go's `fmt` `%q` for a string: the escaped text in double quotes. -/
def goQuote (s : String) : String :=
  "\"" ++ String.mk (s.data.flatMap goQuoteChar) ++ "\""

/-- `CreateRecord`'s PATCH body (powerdns.go lines 313-322): one record
set with change type REPLACE holding exactly the given record; `TTL` is
left at its zero value by the Go struct literal. -/
def createRecordBody (record : Record) : zonePatchRequest :=
  { RecordSets := some
      [{ Name := record.Name
         Type_ := record.Type_
         ChangeType := "REPLACE"
         TTL := 0
         Records := some [record] }] }

/-- `CreateRecord` (powerdns.go lines 312-345), response handling:
status 200/204 returns the record identifier; otherwise decode the body
as an error object and report it, or a generic message when the body is
not decodable. -/
def CreateRecord (record : Record) (resp : Except String HTTPResponse) :
    Except String String :=
  match resp with
  | .error e => .error e
  | .ok resp =>
      if resp.StatusCode ≠ 200 ∧ resp.StatusCode ≠ 204 then
        match resp.errorBody with
        | .error _ => .error ("Error creating record: " ++ record.ID)
        | .ok errorResp =>
            .error ("Error creating record: " ++ record.ID
              ++ ", reason: " ++ goQuote errorResp.ErrorMsg)
      else .ok record.ID

/-- `DeleteRecordSet`'s PATCH body (powerdns.go lines 380-388): one
record set with change type DELETE; `TTL` and `Records` are left at
their zero values (nil records → absent after `omitempty`). -/
def deleteRecordSetBody (name tpe : String) : zonePatchRequest :=
  { RecordSets := some
      [{ Name := name
         Type_ := tpe
         ChangeType := "DELETE"
         TTL := 0
         Records := none }] }

/-- `DeleteRecordSet` (powerdns.go lines 379-411), response handling. -/
def DeleteRecordSet (name tpe : String) (resp : Except String HTTPResponse) :
    Except String Unit :=
  match resp with
  | .error e => .error e
  | .ok resp =>
      if resp.StatusCode ≠ 200 ∧ resp.StatusCode ≠ 204 then
        match resp.errorBody with
        | .error _ => .error ("Error deleting record: " ++ name ++ " " ++ tpe)
        | .ok errorResp =>
            .error ("Error deleting record: " ++ name ++ " " ++ tpe
              ++ ", reason: " ++ goQuote errorResp.ErrorMsg)
      else .ok ()

/-- `ListRecordsByNameAndType` (powerdns.go lines 257-271): filter the
zone's records by exact name and type equality, accumulating into a
non-nil empty slice (`make([]Record, 0, 10)`); `allRecords` is the
outcome of the underlying `ListRecords` call. -/
def ListRecordsByNameAndType (allRecords : Except String (GoSlice Record))
    (name tpe : String) : Except String (GoSlice Record) :=
  match allRecords with
  | .error e => .error e
  | .ok allRecords =>
      .ok (allRecords.view.foldl
        (fun records r =>
          if r.Name = name ∧ r.Type_ = tpe then goAppend records r
          else records)
        (some []))

/-- `ListRecordsAsRRSet` (powerdns.go lines 231-254): return the decoded
record-set slice; the (redundant) Go guard returns nil when the slice is
nil and empty. -/
def ListRecordsAsRRSet (decoded : Except String ZoneInfo) :
    Except String (GoSlice ResourceRecordSet) :=
  match decoded with
  | .error e => .error e
  | .ok zoneInfo =>
      if zoneInfo.ResourceRecordSets = none
          ∧ zoneInfo.ResourceRecordSets.view.length = 0 then
        .ok none
      else .ok zoneInfo.ResourceRecordSets

theorem flatMap_goQuoteChar_plain (l : List Char)
    (h1 : '"' ∉ l) (h2 : '\\' ∉ l) : l.flatMap goQuoteChar = l := by
  induction l with
  | nil => rfl
  | cons c rest ih =>
      rw [List.flatMap_cons,
        show goQuoteChar c = [c] from by
          rw [goQuoteChar,
            if_neg (fun hc => h1 (by rw [← hc]; exact List.mem_cons_self _ _)),
            if_neg (fun hc => h2 (by rw [← hc]; exact List.mem_cons_self _ _))],
        ih (fun hm => h1 (List.mem_cons.mpr (Or.inr hm)))
          (fun hm => h2 (List.mem_cons.mpr (Or.inr hm)))]
      rfl

theorem goQuote_plain (msg : String)
    (h1 : '"' ∉ msg.data) (h2 : '\\' ∉ msg.data) :
    (goQuote msg).data = ['"'] ++ msg.data ++ ['"'] := by
  rw [goQuote, String.data_append, String.data_append,
    show (String.mk (msg.data.flatMap goQuoteChar)).data
      = msg.data.flatMap goQuoteChar from rfl,
    flatMap_goQuoteChar_plain msg.data h1 h2]

/-- C3: for every zone and record, `CreateRecord` sends a PATCH whose
body contains exactly one record set with change type REPLACE whose
records list is exactly the given record; a 200 or 204 response returns
the record's identifier and no error; any other status yields an error
whose message contains the record identifier and the server-decoded
reason, or a generic message containing the identifier when the body
cannot be decoded as an error. -/
theorem C3_createRecord_replace_and_status (record : Record)
    (resp : HTTPResponse) (msg d : String) :
    (createRecordBody record).RecordSets.view
        = [ResourceRecordSet.mk record.Name record.Type_ "REPLACE" 0
            (some [record])]
      ∧ ((resp.StatusCode = 200 ∨ resp.StatusCode = 204) →
          CreateRecord record (.ok resp) = .ok record.ID)
      ∧ (¬ (resp.StatusCode = 200 ∨ resp.StatusCode = 204) →
          resp.errorBody = .ok (errorResponse.mk msg) →
          CreateRecord record (.ok resp)
              = .error ("Error creating record: " ++ record.ID
                  ++ ", reason: " ++ goQuote msg)
            ∧ record.ID.data <:+: ("Error creating record: " ++ record.ID
                  ++ ", reason: " ++ goQuote msg).data
            ∧ (('"' ∉ msg.data ∧ '\\' ∉ msg.data) →
                msg.data <:+: ("Error creating record: " ++ record.ID
                  ++ ", reason: " ++ goQuote msg).data))
      ∧ (¬ (resp.StatusCode = 200 ∨ resp.StatusCode = 204) →
          resp.errorBody = .error d →
          CreateRecord record (.ok resp)
              = .error ("Error creating record: " ++ record.ID)
            ∧ record.ID.data
                <:+: ("Error creating record: " ++ record.ID).data) := by
  refine ⟨rfl, ?_, ?_, ?_⟩
  · intro h
    simp only [CreateRecord]
    rw [if_neg (fun hx => h.elim hx.1 hx.2)]
  · intro h hb
    have hcond : resp.StatusCode ≠ 200 ∧ resp.StatusCode ≠ 204 :=
      ⟨fun h1 => h (Or.inl h1), fun h2 => h (Or.inr h2)⟩
    refine ⟨?_, ?_, ?_⟩
    · simp only [CreateRecord]
      rw [if_pos hcond, hb]
    · have hE : ("Error creating record: " ++ record.ID
            ++ ", reason: " ++ goQuote msg).data
          = ("Error creating record: " : String).data ++ record.ID.data
            ++ ((", reason: " : String).data ++ (goQuote msg).data) := by
        simp [String.data_append, List.append_assoc]
      rw [hE]
      exact List.infix_append _ _ _
    · intro hplain
      have hq : msg.data <:+: (goQuote msg).data := by
        rw [goQuote_plain msg hplain.1 hplain.2]
        exact List.infix_append _ _ _
      have hE2 : ("Error creating record: " ++ record.ID
            ++ ", reason: " ++ goQuote msg).data
          = ("Error creating record: " ++ record.ID
              ++ ", reason: " : String).data ++ (goQuote msg).data := by
        simp [String.data_append]
      rw [hE2]
      exact hq.trans (List.suffix_append _ _).isInfix
  · intro h hb
    have hcond : resp.StatusCode ≠ 200 ∧ resp.StatusCode ≠ 204 :=
      ⟨fun h1 => h (Or.inl h1), fun h2 => h (Or.inr h2)⟩
    refine ⟨?_, ?_⟩
    · simp only [CreateRecord]
      rw [if_pos hcond, hb]
    · rw [String.data_append]
      exact (List.suffix_append _ _).isInfix

/-- Witness for C3 at the record `a.example.com. A 1.2.3.4`: a 204
response yields the identifier; a 422 response with body
`{"error":"no such zone"}` yields the combined error message, which
contains both the identifier and the reason. -/
theorem C3_createRecord_replace_and_status_witness :
    CreateRecord (Record.mk "a.example.com." "A" "1.2.3.4" 60 false)
        (.ok (HTTPResponse.mk 204 (.error "EOF")))
      = .ok (Record.ID (Record.mk "a.example.com." "A" "1.2.3.4" 60 false))
      ∧ CreateRecord (Record.mk "a.example.com." "A" "1.2.3.4" 60 false)
          (.ok (HTTPResponse.mk 422 (.ok (errorResponse.mk "no such zone"))))
        = .error ("Error creating record: "
            ++ Record.ID (Record.mk "a.example.com." "A" "1.2.3.4" 60 false)
            ++ ", reason: " ++ goQuote "no such zone")
      ∧ ("no such zone" : String).data
          <:+: ("Error creating record: "
            ++ Record.ID (Record.mk "a.example.com." "A" "1.2.3.4" 60 false)
            ++ ", reason: " ++ goQuote "no such zone").data := by
  have h204 := (C3_createRecord_replace_and_status
    (Record.mk "a.example.com." "A" "1.2.3.4" 60 false)
    (HTTPResponse.mk 204 (.error "EOF")) "" "").2.1 (Or.inr rfl)
  have h422 := (C3_createRecord_replace_and_status
    (Record.mk "a.example.com." "A" "1.2.3.4" 60 false)
    (HTTPResponse.mk 422 (.ok (errorResponse.mk "no such zone")))
    "no such zone" "").2.2.1 (by decide) rfl
  exact ⟨h204, h422.1, h422.2.2 (by decide)⟩

/-- C6: for every zone, name and type, `DeleteRecordSet` sends a PATCH
whose single record set has change type DELETE and an absent records
list; and when the status is neither 200 nor 204 and the body decodes as
an error object, the returned error's text contains the name, the type
and the decoded message. -/
theorem C6_deleteRecordSet_body_and_error (name tpe msg : String)
    (resp : HTTPResponse) :
    (deleteRecordSetBody name tpe).RecordSets.view
        = [ResourceRecordSet.mk name tpe "DELETE" 0 none]
      ∧ (ResourceRecordSet.mk name tpe "DELETE" 0 none).Records.view = []
      ∧ (¬ (resp.StatusCode = 200 ∨ resp.StatusCode = 204) →
          resp.errorBody = .ok (errorResponse.mk msg) →
          DeleteRecordSet name tpe (.ok resp)
              = .error ("Error deleting record: " ++ name ++ " " ++ tpe
                  ++ ", reason: " ++ goQuote msg)
            ∧ name.data <:+: ("Error deleting record: " ++ name ++ " " ++ tpe
                  ++ ", reason: " ++ goQuote msg).data
            ∧ tpe.data <:+: ("Error deleting record: " ++ name ++ " " ++ tpe
                  ++ ", reason: " ++ goQuote msg).data
            ∧ (('"' ∉ msg.data ∧ '\\' ∉ msg.data) →
                msg.data <:+: ("Error deleting record: " ++ name ++ " " ++ tpe
                  ++ ", reason: " ++ goQuote msg).data)) := by
  refine ⟨rfl, rfl, ?_⟩
  intro h hb
  have hcond : resp.StatusCode ≠ 200 ∧ resp.StatusCode ≠ 204 :=
    ⟨fun h1 => h (Or.inl h1), fun h2 => h (Or.inr h2)⟩
  refine ⟨?_, ?_, ?_, ?_⟩
  · simp only [DeleteRecordSet]
    rw [if_pos hcond, hb]
  · have hE : ("Error deleting record: " ++ name ++ " " ++ tpe
          ++ ", reason: " ++ goQuote msg).data
        = ("Error deleting record: " : String).data ++ name.data
          ++ ((" " : String).data ++ tpe.data
            ++ (", reason: " : String).data ++ (goQuote msg).data) := by
      simp [String.data_append, List.append_assoc]
    rw [hE]
    exact List.infix_append _ _ _
  · have hE : ("Error deleting record: " ++ name ++ " " ++ tpe
          ++ ", reason: " ++ goQuote msg).data
        = ("Error deleting record: " ++ name ++ " " : String).data ++ tpe.data
          ++ ((", reason: " : String).data ++ (goQuote msg).data) := by
      simp [String.data_append, List.append_assoc]
    rw [hE]
    exact List.infix_append _ _ _
  · intro hplain
    have hq : msg.data <:+: (goQuote msg).data := by
      rw [goQuote_plain msg hplain.1 hplain.2]
      exact List.infix_append _ _ _
    have hE2 : ("Error deleting record: " ++ name ++ " " ++ tpe
          ++ ", reason: " ++ goQuote msg).data
        = ("Error deleting record: " ++ name ++ " " ++ tpe
            ++ ", reason: " : String).data ++ (goQuote msg).data := by
      simp [String.data_append]
    rw [hE2]
    exact hq.trans (List.suffix_append _ _).isInfix

/-- Witness for C6: deleting `a.example.com. A` against a 422 response
with body `{"error":"no such zone"}` produces an error mentioning the
name, the type and `no such zone`. -/
theorem C6_deleteRecordSet_body_and_error_witness :
    (deleteRecordSetBody "a.example.com." "A").RecordSets.view
        = [ResourceRecordSet.mk "a.example.com." "A" "DELETE" 0 none]
      ∧ DeleteRecordSet "a.example.com." "A"
          (.ok (HTTPResponse.mk 422 (.ok (errorResponse.mk "no such zone"))))
        = .error ("Error deleting record: " ++ "a.example.com." ++ " " ++ "A"
            ++ ", reason: " ++ goQuote "no such zone")
      ∧ ("no such zone" : String).data
          <:+: ("Error deleting record: " ++ "a.example.com." ++ " " ++ "A"
            ++ ", reason: " ++ goQuote "no such zone").data := by
  have h := C6_deleteRecordSet_body_and_error "a.example.com." "A"
    "no such zone" (HTTPResponse.mk 422 (.ok (errorResponse.mk "no such zone")))
  have he := h.2.2 (by decide) rfl
  exact ⟨h.1, he.1, he.2.2.2 (by decide)⟩

theorem filterFold_eq (name tpe : String) :
    ∀ (l : List Record) (x : List Record),
      l.foldl (fun records r =>
        if r.Name = name ∧ r.Type_ = tpe then goAppend records r
        else records) (some x)
      = some (x ++ l.filter
          (fun r => decide (r.Name = name ∧ r.Type_ = tpe))) := by
  intro l
  induction l with
  | nil => intro x; simp
  | cons r rest ih =>
      intro x
      by_cases h : r.Name = name ∧ r.Type_ = tpe
      · rw [List.foldl_cons,
          show (if r.Name = name ∧ r.Type_ = tpe
              then goAppend (some x) r else some x) = some (x ++ [r]) from by
            rw [if_pos h]; rfl,
          ih (x ++ [r]), List.filter_cons_of_pos (by simpa using h)]
        simp
      · rw [List.foldl_cons, if_neg h, ih x,
          List.filter_cons_of_neg (by simpa using h)]

/-- C7: whenever the underlying `ListRecords` call succeeds,
`ListRecordsByNameAndType` returns exactly the records whose `Name` and
`Type` are equal (byte-for-byte, case-sensitively) to the given name and
type, in their original order; when no record matches it returns an
empty non-nil slice and no error. -/
theorem C7_listRecordsByNameAndType_filters (all : GoSlice Record)
    (name tpe : String) :
    ListRecordsByNameAndType (.ok all) name tpe
        = .ok (some (all.view.filter
            (fun r => decide (r.Name = name ∧ r.Type_ = tpe))))
      ∧ ((∀ r ∈ all.view, ¬ (r.Name = name ∧ r.Type_ = tpe)) →
          ListRecordsByNameAndType (.ok all) name tpe = .ok (some [])) := by
  have h1 : ListRecordsByNameAndType (.ok all) name tpe
      = .ok (some (all.view.filter
          (fun r => decide (r.Name = name ∧ r.Type_ = tpe)))) := by
    simp only [ListRecordsByNameAndType]
    rw [filterFold_eq name tpe all.view []]
    simp
  refine ⟨h1, fun hnone => ?_⟩
  rw [h1, List.filter_eq_nil_iff.mpr (fun r hm => by simpa using hnone r hm)]

/-- Witness for C7: a zone holding only `old.example.com. A` matched
against `a.example.com. A` yields the empty non-nil slice without an
error. -/
theorem C7_listRecordsByNameAndType_filters_witness :
    ListRecordsByNameAndType
        (.ok (some [Record.mk "old.example.com." "A" "5.6.7.8" 300 false]))
        "a.example.com." "A"
      = .ok (some []) :=
  (C7_listRecordsByNameAndType_filters
    (some [Record.mk "old.example.com." "A" "5.6.7.8" 300 false])
    "a.example.com." "A").2 (by decide)

/-- C8: for every zone response that decodes successfully,
`ListRecordsAsRRSet` returns the decoded record-set slice and no error;
in particular a zone with no record sets (nil or empty) yields an empty
result and never an error. -/
theorem C8_listRecordsAsRRSet_verbatim (zoneInfo : ZoneInfo) :
    ListRecordsAsRRSet (.ok zoneInfo) = .ok zoneInfo.ResourceRecordSets
      ∧ (zoneInfo.ResourceRecordSets.view = [] →
          ∃ s, ListRecordsAsRRSet (.ok zoneInfo) = .ok s ∧ s.view = []) := by
  have h1 : ListRecordsAsRRSet (.ok zoneInfo)
      = .ok zoneInfo.ResourceRecordSets := by
    simp only [ListRecordsAsRRSet]
    by_cases h : zoneInfo.ResourceRecordSets = none
        ∧ zoneInfo.ResourceRecordSets.view.length = 0
    · rw [if_pos h, h.1]
    · rw [if_neg h]
  exact ⟨h1, fun hv => ⟨zoneInfo.ResourceRecordSets, h1, hv⟩⟩

/-- Witness for C8: a zone whose record-set slice is nil yields an empty
result and no error. -/
theorem C8_listRecordsAsRRSet_verbatim_witness :
    ∃ s, ListRecordsAsRRSet
        (.ok (ZoneInfo.mk "z1" "example.com." "" "" 0 "Native" false 1 1
          [] none none))
      = .ok s ∧ GoSlice.view s = [] :=
  (C8_listRecordsAsRRSet_verbatim
    (ZoneInfo.mk "z1" "example.com." "" "" 0 "Native" false 1 1
      [] none none)).2 rfl

end powerdns
